import Mathlib
/-!
Verification of the `opnsense-cli` generator core: a shallow embedding of
`generate/parser/name_transform.py`, `generate/parser/endpoint_resolver.py`,
`generate/parser/markdown_parser.py` (parameter grammar) and the endpoint
collection / grouping logic of `generate/emitter/go_emitter.py` and
`generate/emitter/cli_emitter.py`, together with theorems about the
behaviour of those functions.

Python strings are embedded as `List Char` (the inputs handled by the
generator are ASCII); Python `str` methods are embedded as the
corresponding ASCII list transformations.
-/

namespace Gen
/-- Strings of the embedded program: Python `str` as a list of characters. -/
abbrev Str := List Char
/-- ASCII lowercasing of a single character (Python `str.lower` on ASCII). -/
def asciiLower (c : Char) : Char :=
  if 'A' ≤ c ∧ c ≤ 'Z' then Char.ofNat (c.toNat + 32) else c
/-- ASCII uppercasing of a single character (Python `str.upper` on ASCII). -/
def asciiUpper (c : Char) : Char :=
  if 'a' ≤ c ∧ c ≤ 'z' then Char.ofNat (c.toNat - 32) else c
/-- Python `s.lower()` on an ASCII string. -/
def lowerStr (s : Str) : Str := s.map asciiLower
/-- Python `s.upper()` on an ASCII string. -/
def upperStr (s : Str) : Str := s.map asciiUpper
/-- Python whitespace characters (the ASCII ones recognized by `str.strip`). -/
def isPyWs (c : Char) : Bool :=
  decide (c ∈ ([' ', '\t', '\n', '\r', '\x0b', '\x0c'] : List Char))
/-- Python `s.lstrip(chars)` for a one-predicate character class. -/
def stripLeftIf (p : Char → Bool) (s : Str) : Str := s.dropWhile p
/-- Python `s.rstrip(chars)` for a one-predicate character class. -/
def stripRightIf (p : Char → Bool) (s : Str) : Str := (s.reverse.dropWhile p).reverse
/-- Python `s.strip(chars)` for a one-predicate character class. -/
def stripIf (p : Char → Bool) (s : Str) : Str := stripRightIf p (stripLeftIf p s)
/-- Python `s.strip()` (whitespace at both ends). -/
def stripWs (s : Str) : Str := stripIf isPyWs s
/-- Python `s.isspace()`: nonempty and all characters whitespace. -/
def isSpaceStr (s : Str) : Bool := !s.isEmpty && s.all isPyWs
/-- Python `s.startswith(p)`. -/
def startsWithS (s p : Str) : Bool := decide (s.take p.length = p)
/-- Python `s.endswith(p)`. -/
def endsWithS (s p : Str) : Bool := decide (s.drop (s.length - p.length) = p)
/-- Python `s.removesuffix(t)`: drop a trailing occurrence of `t`, if present. -/
def removeSuffixS (s t : Str) : Str :=
  if endsWithS s t then s.take (s.length - t.length) else s
/-- Python `s.rstrip(underscore)` as used on the CRUD prefixes. -/
def rstripUnderscore (s : Str) : Str := stripRightIf (fun c => decide (c = '_')) s
/-- First `some` in a list of options; models a sequence of early returns. -/
def firstSome {α : Type} : List (Option α) → Option α
  | [] => none
  | o :: rest => o.or (firstSome rest)
/-! Embedding of `generate/parser/name_transform.py`. -/

/-- Words that the source lists as Go acronyms (`_KNOWN_ACRONYMS`); the source
stores them in lowercase. -/
def knownAcronyms : List Str :=
  [("uuid").toList, ("url").toList, ("uri").toList, ("api").toList, ("ip").toList,
   ("tcp").toList, ("udp").toList, ("dns").toList, ("http").toList, ("https").toList,
   ("tls").toList, ("ssl").toList, ("ssh").toList, ("cpu").toList, ("ram").toList,
   ("os").toList, ("id").toList, ("io").toList, ("xml").toList, ("json").toList,
   ("html").toList, ("css").toList, ("php").toList, ("sql").toList, ("dhcp").toList,
   ("nat").toList, ("vpn").toList, ("vlan").toList, ("mac").toList,
   ("arp").toList, ("icmp").toList, ("igmp").toList, ("bgp").toList, ("ospf").toList,
   ("rip").toList, ("snmp").toList, ("ntp").toList, ("ldap").toList,
   ("acl").toList, ("ha").toList, ("qos").toList]
/-- Python `str.isupper` on ASCII: at least one cased character and every
cased character uppercase. -/
def isUpperStr (w : Str) : Bool :=
  w.any (fun c => c.isAlpha) && w.all (fun c => !c.isAlpha || c.isUpper)
/-- Worker for `_group_single_chars`: `acc` is the uppercased acronym run
collected so far, flushed when a non-single-character part (or the end of
the list) is reached. -/
def groupSingleGo : Str → List Str → List Str
  | acc, [] => if acc = [] then [] else [acc]
  | acc, p :: ps =>
    if p.length = 1 then groupSingleGo (acc ++ upperStr p) ps
    else if acc = [] then p :: groupSingleGo [] ps
    else acc :: p :: groupSingleGo [] ps
/-- Embeds `_group_single_chars`: consecutive single-character parts are
collapsed into one uppercased acronym part. -/
def _group_single_chars (parts : List Str) : List Str := groupSingleGo [] parts
/-- Python `word[0].upper() + word[1:]` (callers guard against empty words). -/
def capitalizeWord : Str → Str
  | [] => []
  | c :: rest => asciiUpper c :: rest
/-- Shared per-word re-casing of `snake_to_camel` / `snake_to_pascal`
(the branches after the first-word special case). -/
def recaseWord (w : Str) : Str :=
  if 1 < w.length ∧ upperStr w ∈ knownAcronyms then upperStr w
  else if isUpperStr w ∧ 1 < w.length then upperStr w
  else capitalizeWord w
/-- Embeds `snake_to_camel`. -/
def snake_to_camel (s : Str) : Str :=
  if ¬ ('_' ∈ s) then s
  else
    let s1 := s.dropWhile (fun c => decide (c = '_'))
    let parts := List.splitOn '_' s1
    if parts = [] then s
    else
      let grouped := _group_single_chars parts
      (grouped.enum.map (fun iw =>
        if iw.2 = [] then []
        else if iw.1 = 0 then lowerStr iw.2
        else recaseWord iw.2)).flatten
/-- Embeds `snake_to_pascal`. -/
def snake_to_pascal (s : Str) : Str :=
  if ¬ ('_' ∈ s) then (match s with | [] => [] | c :: rest => asciiUpper c :: rest)
  else
    let s1 := s.dropWhile (fun c => decide (c = '_'))
    let parts := List.splitOn '_' s1
    let grouped := _group_single_chars parts
    (grouped.map (fun w => if w = [] then [] else recaseWord w)).flatten
/-! Embedding of `generate/model/ir.py` (the entities the claims need). -/

/-- IR `Parameter` dataclass. -/
structure Parameter where
  name : Str
  required : Bool := true
  default : Option Str := none
  deriving DecidableEq
/-- IR `ModelField` dataclass. -/
structure ModelField where
  name : Str
  field_type : Str
  go_name : Str
  json_name : Str
  required : Bool := false
  default : Option Str := none
  volatile : Bool := false
  multiple : Bool := false
  options : List Str := []
  deriving DecidableEq
/-- IR `ModelItem` dataclass. -/
structure ModelItem where
  name : Str
  go_name : Str
  container_name : Str
  fields : List ModelField := []
  deriving DecidableEq
/-- IR `Model` dataclass. -/
structure Model where
  mount : Str
  xml_url : Str
  items : List ModelItem := []
  version : Str := []
  deriving DecidableEq
/-- IR `Endpoint` dataclass. -/
structure Endpoint where
  methods : List Str
  module : Str
  controller : Str
  command : Str
  command_camel : Str
  url_path : Str
  go_method_name : Str
  parameters : List Parameter := []
  crud_verb : Str := []
  model_item : Option ModelItem := none
  item_json_key : Str := []
  deriving DecidableEq
/-- IR `Controller` dataclass. -/
structure Controller where
  name : Str
  php_file : Str
  base_class : Str := []
  is_abstract : Bool := false
  endpoints : List Endpoint := []
  model : Option Model := none
  model_url : Str := []
  deriving DecidableEq
/-- IR `Module` dataclass. -/
structure Module where
  name : Str
  category : Str
  controllers : List Controller := []
  deriving DecidableEq
/-! Embedding of `generate/parser/endpoint_resolver.py`. -/

/-- Source `_CRUD_PREFIXES`, in the order the loop in `_parse_crud` tries them. -/
def crudPrefixList : List Str :=
  [("add_").toList, ("set_").toList, ("get_").toList,
   ("del_").toList, ("search_").toList, ("toggle_").toList]
/-- Loop body of `_parse_crud`: try each prefix; on a prefix hit with an
empty remainder, keep scanning (the source falls through to the next
prefix and ultimately returns the empty pair). -/
def parseCrudGo : List Str → Str → Str × Str
  | [], _ => ([], [])
  | p :: ps, cmd =>
    if startsWithS cmd p then
      let suffix := cmd.drop p.length
      if suffix = [] then parseCrudGo ps cmd
      else (rstripUnderscore p, suffix)
    else parseCrudGo ps cmd
/-- Embeds `_parse_crud`. -/
def _parse_crud (cmd : Str) : Str × Str := parseCrudGo crudPrefixList cmd
/-- Embeds `_normalize`: lowercase and strip every underscore. -/
def _normalize (s : Str) : Str := (lowerStr s).filter (fun c => decide (c ≠ '_'))
/-- Source `_MANUAL_OVERRIDES`: (module, controller, suffix) → item name. -/
def manualOverrides : List ((Str × Str × Str) × Str) :=
  [((("clamav").toList, ("url").toList, ("url").toList), ("list").toList),
   ((("wol").toList, ("wol").toList, ("host").toList), ("wolentry").toList)]
/-- Override stage of `_match_item`: when the key is present, return the
first item whose lowercased name equals the override target; when the key
is absent, or no item carries the target name, the source falls through. -/
def overrideMatch (moduleName controller suffixLower : Str) (items : List ModelItem) : Option ModelItem :=
  match manualOverrides.find? (fun e => decide (e.1 = (moduleName, controller, suffixLower))) with
  | some e => items.find? (fun it => decide (lowerStr it.name = e.2))
  | none => none
/-- Exact-name stage: first item whose lowercased name equals the suffix. -/
def exactNameMatch (suffixLower : Str) (items : List ModelItem) : Option ModelItem :=
  items.find? (fun it => decide (lowerStr it.name = suffixLower))
/-- Container-name stage of `_match_item`. -/
def containerMatch (suffixLower : Str) (items : List ModelItem) : Option ModelItem :=
  items.find? (fun it => decide (lowerStr it.container_name = suffixLower))
/-- Normalized item-name stage of `_match_item`. -/
def normNameMatch (suffixNorm : Str) (items : List ModelItem) : Option ModelItem :=
  items.find? (fun it => decide (_normalize it.name = suffixNorm))
/-- Normalized container-name stage of `_match_item`. -/
def normContainerMatch (suffixNorm : Str) (items : List ModelItem) : Option ModelItem :=
  items.find? (fun it => decide (_normalize it.container_name = suffixNorm))
/-- Source `plurals` list: `suffix + "s"`, plus the `y → ies` form when the
suffix ends in `y`. -/
def pluralForms (suffixLower : Str) : List Str :=
  [suffixLower ++ ("s").toList] ++
    (if endsWithS suffixLower (("y").toList) then [suffixLower.dropLast ++ ("ies").toList] else [])
/-- Plural stage of `_match_item`: per plural form, item names first, then
container names. -/
def pluralMatch (suffixLower : Str) (items : List ModelItem) : Option ModelItem :=
  firstSome ((pluralForms suffixLower).map (fun pl =>
    (items.find? (fun it => decide (lowerStr it.name = pl))).or
      (items.find? (fun it => decide (lowerStr it.container_name = pl)))))
/-- The `suffix + "ing"` stage of `_match_item`. -/
def ingMatch (suffixLower : Str) (items : List ModelItem) : Option ModelItem :=
  items.find? (fun it => decide (lowerStr it.name = suffixLower ++ ("ing").toList))
/-- Endswith stage of `_match_item`: candidates are the normalized suffix and
the normalized plural forms; a strictly longer normalized item name, then
container name, must end with the candidate.  The source imposes no minimum
candidate length here. -/
def endsWithMatch (suffixNorm suffixLower : Str) (items : List ModelItem) : Option ModelItem :=
  firstSome (([suffixNorm] ++ (pluralForms suffixLower).map _normalize).map (fun cand =>
    (items.find? (fun it =>
        decide (cand.length < (_normalize it.name).length) &&
          endsWithS (_normalize it.name) cand)).or
      (items.find? (fun it =>
        decide (cand.length < (_normalize it.container_name).length) &&
          endsWithS (_normalize it.container_name) cand))))
/-- Trailing `_item` stripping stage of `_match_item`. -/
def stripItemMatch (suffixLower : Str) (items : List ModelItem) : Option ModelItem :=
  items.find? (fun it =>
    decide (removeSuffixS (lowerStr it.name) (("_item").toList) ≠ lowerStr it.name ∧
      removeSuffixS (lowerStr it.name) (("_item").toList) = suffixLower))
/-- Compound-suffix stage of `_match_item`: concatenated form, then last
segment, then first segment; only tried when the suffix contains `_`. -/
def compoundMatch (suffix suffixLower : Str) (items : List ModelItem) : Option ModelItem :=
  if '_' ∈ suffix then
    let parts := List.splitOn '_' suffixLower
    (items.find? (fun it => decide (_normalize it.name = parts.flatten))).or
      ((items.find? (fun it => decide (lowerStr it.name = parts.getLastD []))).or
        (items.find? (fun it => decide (lowerStr it.name = parts.headD []))))
  else none
/-- Startswith stage of `_match_item`: only for a normalized suffix of at
least 3 characters; a strictly longer normalized item name, then container
name, must start with it. -/
def startsWithMatch (suffixNorm : Str) (items : List ModelItem) : Option ModelItem :=
  if 3 ≤ suffixNorm.length then
    (items.find? (fun it =>
        decide (suffixNorm.length < (_normalize it.name).length) &&
          startsWithS (_normalize it.name) suffixNorm)).or
      (items.find? (fun it =>
        decide (suffixNorm.length < (_normalize it.container_name).length) &&
          startsWithS (_normalize it.container_name) suffixNorm))
  else none
/-- Embeds `_match_item_suffix` (controller-name matching for the generic
`item` suffix). -/
def _match_item_suffix (controller : Str) (items : List ModelItem) : Option ModelItem :=
  let cl := lowerStr controller
  let cn := _normalize controller
  (items.find? (fun it => decide (lowerStr it.name = cl))).or
    ((items.find? (fun it => decide (_normalize it.name = cn))).or
      ((items.find? (fun it => decide (_normalize it.container_name = cn))).or
        ((if 3 ≤ cn.length then
            items.find? (fun it =>
              decide (cn.length < (_normalize it.name).length) &&
                startsWithS (_normalize it.name) cn)
          else none).or
          (if items.length = 1 then items.head? else none))))
/-- Embeds `_match_item`: the override stage, the generic-`item` delegate
(which returns the delegate's answer even when it is `none`), then the
priority ladder of suffix strategies. -/
def _match_item (suffix controller : Str) (items : List ModelItem) (moduleName : Str) : Option ModelItem :=
  let suffixLower := lowerStr suffix
  let suffixNorm := _normalize suffix
  match overrideMatch moduleName controller suffixLower items with
  | some it => some it
  | none =>
    if suffixLower = ("item").toList then _match_item_suffix controller items
    else
      (exactNameMatch suffixLower items).or
        ((containerMatch suffixLower items).or
          ((normNameMatch suffixNorm items).or
            ((normContainerMatch suffixNorm items).or
              ((pluralMatch suffixLower items).or
                ((ingMatch suffixLower items).or
                  ((endsWithMatch suffixNorm suffixLower items).or
                    ((stripItemMatch suffixLower items).or
                      ((compoundMatch suffix suffixLower items).or
                        (startsWithMatch suffixNorm items)))))))))
/-- Per-endpoint body of `resolve_endpoints`: annotate the endpoint when the
command parses as CRUD and the suffix matches an item. -/
def resolveEndpoint (moduleName : Str) (items : List ModelItem) (ep : Endpoint) : Endpoint :=
  let vs := _parse_crud ep.command
  if vs.1 = [] then ep
  else
    match _match_item vs.2 ep.controller items moduleName with
    | some it => { ep with crud_verb := vs.1, model_item := some it, item_json_key := it.name }
    | none => ep
/-- Per-controller body of `resolve_endpoints`: skipped when the controller
has no model or the model has no items. -/
def resolveController (moduleName : Str) (c : Controller) : Controller :=
  match c.model with
  | none => c
  | some m =>
    if m.items = [] then c
    else { c with endpoints := c.endpoints.map (resolveEndpoint moduleName m.items) }
/-- Embeds `resolve_endpoints` (the in-place mutation as a graph transform). -/
def resolve_endpoints (modules : List Module) : List Module :=
  modules.map (fun m => { m with controllers := m.controllers.map (resolveController m.name) })
/-! Embedding of `_parse_parameters` from `generate/parser/markdown_parser.py`. -/

/-- Python `part.split(sep, 1)` when `sep` occurs: the text before the first
occurrence and the text after it. -/
def splitOnceAt (sep : Char) (s : Str) : Str × Str :=
  (s.takeWhile (fun c => decide (c ≠ sep)), (s.dropWhile (fun c => decide (c ≠ sep))).drop 1)
/-- Loop body of `_parse_parameters`: one comma-separated token, already
split off; `none` models the `continue` on an empty token. -/
def parseParamToken (part : Str) : Option Parameter :=
  let p := stripLeftIf (fun c => decide (c = '$')) (stripWs part)
  if p = [] then none
  else if '=' ∈ p then
    let nd := splitOnceAt '=' p
    some { name := stripWs nd.1, required := false, default := some (stripWs nd.2) }
  else some { name := stripWs p, required := true, default := none }
/-- Embeds `_parse_parameters`. -/
def _parse_parameters (s : Str) : List Parameter :=
  if s = [] ∨ isSpaceStr s then []
  else
    let s1 := stripWs (stripIf (fun c => decide (c = '*')) s)
    if ¬ startsWithS s1 (("$").toList) then []
    else (List.splitOn ',' s1).filterMap parseParamToken
/-! Embedding of the endpoint-collection logic of `go_emitter._collect_endpoints`
and `cli_emitter._collect_resources`. -/

/-- Seen-set based deduplication shared by both collection loops: an element
whose key is already in `seen` is dropped, otherwise it is kept and its key
recorded. -/
def dedupByKey (key : Endpoint → Str) : List Str → List Endpoint → List Endpoint
  | _, [] => []
  | seen, e :: es =>
    if key e ∈ seen then dedupByKey key seen es
    else e :: dedupByKey key (key e :: seen) es
/-- Embeds `go_emitter._collect_endpoints`: one `seen` set across all
non-abstract controllers of the module. -/
def _collect_endpoints (m : Module) : List Endpoint :=
  dedupByKey (fun e => e.go_method_name) []
    ((m.controllers.filter (fun c => !c.is_abstract)).flatMap (fun c => c.endpoints))
/-- Embeds the endpoint-collection loop of `cli_emitter._collect_resources`
(its lines 201-213): the `seen_methods` set is created afresh for every
controller, so deduplication is per controller. -/
def cliCollectSurvivors (m : Module) : List Endpoint :=
  (m.controllers.filter (fun c => !c.is_abstract)).flatMap
    (fun c => dedupByKey (fun e => e.go_method_name) [] c.endpoints)
/-- Score used by `cli_emitter._collect_resources` when several endpoints of
one resource share a CLI verb: typed CRUD = 2, untyped CRUD = 1, plain = 0. -/
def epScore (ep : Endpoint) : Nat :=
  if ep.crud_verb ≠ [] ∧ ep.model_item.isSome then 2
  else if ep.crud_verb ≠ [] then 1
  else 0
/-- Python `dict` assignment `d[k] = v` on an insertion-ordered association
list: replace in place when the key exists, else append. -/
def updateAssoc {β : Type} : List (Str × β) → Str → β → List (Str × β)
  | [], k, v => [(k, v)]
  | (k', v') :: rest, k, v =>
    if k' = k then (k, v) :: rest else (k', v') :: updateAssoc rest k v
/-- Python `d.get(k)` on an association list. -/
def lookupAssoc {β : Type} (l : List (Str × β)) (k : Str) : Option β :=
  (l.find? (fun e => decide (e.1 = k))).map (fun e => e.2)
/-- One iteration of the verb-deduplication loop of
`cli_emitter._collect_resources` (its lines 236-251). -/
def bestStep (best : List (Str × Endpoint × Nat)) (p : Endpoint × Str) : List (Str × Endpoint × Nat) :=
  match lookupAssoc best p.2 with
  | none => updateAssoc best p.2 (p.1, epScore p.1)
  | some prev =>
    if prev.2 < epScore p.1 then updateAssoc best p.2 (p.1, epScore p.1) else best
/-- The verb-deduplication fold of `cli_emitter._collect_resources`: for each
`(endpoint, cli_verb)` pair of one resource, keep the highest-scoring
endpoint per CLI verb (first one wins on ties). -/
def bestFold (pairs : List (Endpoint × Str)) : List (Str × Endpoint × Nat) :=
  pairs.foldl bestStep []
/-- Concrete Item named `details` (no container), used for the short-suffix scenarios. -/
def detailsItem : ModelItem :=
  { name := ("details").toList, go_name := ("Details").toList, container_name := [] }
/-- Concrete Item named `hide` (no container), whose name ends with `de`. -/
def hideItem : ModelItem :=
  { name := ("hide").toList, go_name := ("Hide").toList, container_name := [] }
/-- Item with names unrelated to any controller, for the C4 witness. -/
def weirdItem : ModelItem :=
  { name := ("zzz").toList, go_name := ("Zzz").toList, container_name := ("qqq").toList }
/-- Endpoint carrying the command `add_item`, for the C4 witness. -/
def epAddItem : Endpoint :=
  { methods := [("POST").toList], module := ("m").toList, controller := ("ctl").toList,
    command := ("add_item").toList, command_camel := ("addItem").toList,
    url_path := ("/api/m/ctl/addItem").toList, go_method_name := ("CtlAddItem").toList }
/-- Item named `url`, first in the clamav counterexample list. -/
def urlItem : ModelItem :=
  { name := ("url").toList, go_name := ("Url").toList, container_name := [] }
/-- Item named `list`, the override target in the clamav counterexample. -/
def listItem : ModelItem :=
  { name := ("list").toList, go_name := ("ListType").toList, container_name := [] }
/-- Item named `alias` living in container `aliases`. -/
def aliasItem : ModelItem :=
  { name := ("alias").toList, go_name := ("Alias").toList, container_name := ("aliases").toList }
/-- Item named `entry` whose container is called `alias`. -/
def entryInAliasItem : ModelItem :=
  { name := ("entry").toList, go_name := ("Entry").toList, container_name := ("alias").toList }
/-- Frame relation between an endpoint before and after resolution: every
field other than the three annotation fields is unchanged. -/
def epOtherFieldsEq (old new : Endpoint) : Prop :=
  new.methods = old.methods ∧ new.module = old.module ∧ new.controller = old.controller ∧
  new.command = old.command ∧ new.command_camel = old.command_camel ∧
  new.url_path = old.url_path ∧ new.go_method_name = old.go_method_name ∧
  new.parameters = old.parameters
/-- Atomic-annotation relation for one endpoint: either the three annotation
fields are set together (the verb from the command's CRUD prefix, the Item
found by `_match_item`, and that Item's own name as the interchange key) or
all three keep their empty defaults. -/
def epResolvedOk (mn : Str) (items : List ModelItem) (old new : Endpoint) : Prop :=
  epOtherFieldsEq old new ∧
  ((new.crud_verb = (_parse_crud old.command).1 ∧ new.crud_verb ≠ [] ∧
      ∃ it, _match_item (_parse_crud old.command).2 old.controller items mn = some it ∧
        it ∈ items ∧ new.model_item = some it ∧ new.item_json_key = it.name) ∨
    (new.crud_verb = [] ∧ new.model_item = none ∧ new.item_json_key = []))
/-- Frame relation between a controller before and after resolution: all its
own fields unchanged, and its endpoints pairwise related (identically when
the controller has no non-empty model). -/
def ctrlResolvedOk (mn : Str) (old new : Controller) : Prop :=
  new.name = old.name ∧ new.php_file = old.php_file ∧ new.base_class = old.base_class ∧
  new.is_abstract = old.is_abstract ∧ new.model = old.model ∧ new.model_url = old.model_url ∧
  List.Forall₂
    (fun oe ne =>
      match old.model with
      | some m => if m.items = [] then ne = oe else epResolvedOk mn m.items oe ne
      | none => ne = oe)
    old.endpoints new.endpoints
/-- Frame relation between a module before and after resolution. -/
def modResolvedOk (old new : Module) : Prop :=
  new.name = old.name ∧ new.category = old.category ∧
  List.Forall₂ (ctrlResolvedOk old.name) old.controllers new.controllers
/-- Endpoint with a non-CRUD command, for the C6 witness. -/
def epReconfigure : Endpoint :=
  { methods := [("POST").toList], module := ("m").toList, controller := ("ctl").toList,
    command := ("reconfigure").toList, command_camel := ("reconfigure").toList,
    url_path := ("/api/m/ctl/reconfigure").toList, go_method_name := ("CtlReconfigure").toList }
/-- Controller owning a one-item model and two endpoints, for the C6 witness. -/
def ctlWithModel : Controller :=
  { name := ("CtlController").toList, php_file := ("CtlController.php").toList,
    endpoints := [epAddItem, epReconfigure],
    model := some { mount := ("m.ctl").toList, xml_url := ("u").toList, items := [weirdItem] } }
/-- Module used by the C6 witness. -/
def moduleForFrame : Module :=
  { name := ("m").toList, category := ("core").toList, controllers := [ctlWithModel] }
/-- Endpoint of controller `ab_c`, command `d`: derived method name `AbCD`. -/
def epDupA : Endpoint :=
  { methods := [("GET").toList], module := ("x").toList, controller := ("ab_c").toList,
    command := ("d").toList, command_camel := ("d").toList,
    url_path := ("/api/x/abC/d").toList, go_method_name := ("AbCD").toList }
/-- Endpoint of controller `ab`, command `c_d`: derived method name `AbCD`. -/
def epDupB : Endpoint :=
  { methods := [("GET").toList], module := ("x").toList, controller := ("ab").toList,
    command := ("c_d").toList, command_camel := ("cD").toList,
    url_path := ("/api/x/ab/cD").toList, go_method_name := ("AbCD").toList }
/-- Module with two controllers whose endpoints derive the same method name. -/
def moduleDup : Module :=
  { name := ("x").toList, category := ("core").toList,
    controllers :=
      [{ name := ("AbCController").toList, php_file := ("AbCController.php").toList,
         endpoints := [epDupA] },
       { name := ("AbController").toList, php_file := ("AbController.php").toList,
         endpoints := [epDupB] }] }
/-- Invariant of the verb-deduplication fold: every binding of `best` is a
processed pair whose stored score is its endpoint's score and is maximal
among the processed pairs with that verb; verbs without a binding have no
processed pair. -/
def bestInv (done : List (Endpoint × Str)) (best : List (Str × Endpoint × Nat)) : Prop :=
  (∀ v ep s, lookupAssoc best v = some (ep, s) →
    (ep, v) ∈ done ∧ s = epScore ep ∧ ∀ e, (e, v) ∈ done → epScore e ≤ s) ∧
  (∀ v, lookupAssoc best v = none → ∀ e, (e, v) ∉ done)
/-- Plain (non-CRUD) get-status endpoint for the C8 witness. -/
def plainGetEp : Endpoint :=
  { methods := [("GET").toList], module := ("m").toList, controller := ("ctl").toList,
    command := ("get_status").toList, command_camel := ("getStatus").toList,
    url_path := ("/api/m/ctl/getStatus").toList, go_method_name := ("CtlGetStatus").toList }
/-- Untyped CRUD get endpoint for the C8 witness. -/
def untypedGetEp : Endpoint :=
  { methods := [("GET").toList], module := ("m").toList, controller := ("ctl").toList,
    command := ("get_thing").toList, command_camel := ("getThing").toList,
    url_path := ("/api/m/ctl/getThing").toList, go_method_name := ("CtlGetThing").toList,
    crud_verb := ("get").toList }
/-- Typed CRUD get endpoint for the C8 witness. -/
def typedGetEp : Endpoint :=
  { methods := [("GET").toList], module := ("m").toList, controller := ("ctl").toList,
    command := ("get_zzz").toList, command_camel := ("getZzz").toList,
    url_path := ("/api/m/ctl/getZzz").toList, go_method_name := ("CtlGetZzz").toList,
    crud_verb := ("get").toList, model_item := some weirdItem,
    item_json_key := ("zzz").toList }
/-- The three competing pairs of the C8 witness, all for CLI verb `get`. -/
def getPairs : List (Endpoint × Str) :=
  [(plainGetEp, ("get").toList), (typedGetEp, ("get").toList), (untypedGetEp, ("get").toList)]
example : snake_to_pascal (("get_alias_u_u_i_d").toList) = ("GetAliasUUID").toList := by decide
example : snake_to_camel (("get_alias_u_u_i_d").toList) = ("getAliasUUID").toList := by decide
example : snake_to_pascal (("add_url").toList) = ("AddUrl").toList := by decide
example : snake_to_camel (("add_url").toList) = ("addUrl").toList := by decide
example : snake_to_camel (("get_c_p_u_type").toList) = ("getCPUType").toList := by decide
example : snake_to_camel (("_rolling").toList) = ("rolling").toList := by decide
example : snake_to_pascal (("_carp_status").toList) = ("CarpStatus").toList := by decide
example : snake_to_pascal ([] : Str) = [] := by decide
example : snake_to_camel (("___").toList) = [] := by decide
example : snake_to_pascal (("___").toList) = [] := by decide
example : _parse_crud (("add_item").toList) = (("add").toList, ("item").toList) := by decide
example : _parse_crud (("add_").toList) = ([], []) := by decide
example : _parse_crud (("reconfigure").toList) = ([], []) := by decide
example : _parse_crud (("search_host_alias").toList) = (("search").toList, ("host_alias").toList) := by decide
example : _parse_parameters (("$uuid,$enabled=null").toList) =
    [{ name := ("uuid").toList, required := true, default := none },
     { name := ("enabled").toList, required := false, default := some (("null").toList) }] := by
  decide
example : _parse_parameters (("$a=$b").toList) =
    [{ name := ("a").toList, required := false, default := some (("$b").toList) }] := by decide
example : _parse_parameters ((" $a").toList) =
    [{ name := ("a").toList, required := true, default := none }] := by decide
example : _parse_parameters (("*").toList) = [] := by decide
example : _parse_parameters (("uuid").toList) = [] := by decide
/-! Theorems for the spec claims. -/

/-- C2: the identifier transforms uppercase exactly the acronym parts formed
by collapsing runs of consecutive single-character underscore segments:
`get_alias_u_u_i_d` yields `GetAliasUUID` (Pascal) and `getAliasUUID`
(camel), while the full word `url` (a known acronym in lowercase) is NOT
uppercased: `add_url` yields `AddUrl` / `addUrl`, and mid-identifier
`set_url_table` yields `SetUrlTable`. -/
theorem acronym_grouping_recase :
    snake_to_pascal (("get_alias_u_u_i_d").toList) = ("GetAliasUUID").toList ∧
    snake_to_camel (("get_alias_u_u_i_d").toList) = ("getAliasUUID").toList ∧
    snake_to_pascal (("add_url").toList) = ("AddUrl").toList ∧
    snake_to_camel (("add_url").toList) = ("addUrl").toList ∧
    snake_to_pascal (("set_url_table").toList) = ("SetUrlTable").toList := by
  decide
/-- C10: `snake_to_camel` and `snake_to_pascal` are total by construction in
this embedding, and they map the empty string and every underscore-only
string to the empty string. -/
theorem snake_transforms_underscore_only (s : Str) (h : ∀ c ∈ s, c = '_') :
    snake_to_camel s = [] ∧ snake_to_pascal s = [] := by
  rcases s with _ | ⟨c, cs⟩
  · exact ⟨by decide, by decide⟩
  · have hmem : '_' ∈ c :: cs := by
      have hc : c = '_' := h c (List.mem_cons_self c cs)
      rw [hc] at h ⊢
      exact List.mem_cons_self _ _
    have hdw : (c :: cs).dropWhile (fun x => decide (x = '_')) = [] := by
      rw [List.dropWhile_eq_nil_iff]
      intro x hx
      simp [h x hx]
    constructor
    · rw [snake_to_camel, if_neg (not_not_intro hmem)]
      simp only [hdw]
      rfl
    · rw [snake_to_pascal, if_neg (not_not_intro hmem)]
      simp only [hdw]
      rfl
/-- Witness for C10 at the underscore-only input `___`. -/
theorem snake_transforms_underscore_only_witness :
    snake_to_camel (("___").toList) = [] ∧ snake_to_pascal (("___").toList) = [] :=
  snake_transforms_underscore_only (("___").toList) (by decide)
/-- C3: for every command of the shape `verb ++ _ ++ rest` with `verb` one of
the six CRUD verbs and `rest` nonempty, `_parse_crud` returns the non-empty
pair `(verb, rest)`; for a bare prefix (empty `rest`) it returns the empty
pair. -/
theorem parse_crud_spec (v : Str)
    (hv : v ∈ [("add").toList, ("get").toList, ("set").toList,
               ("del").toList, ("search").toList, ("toggle").toList])
    (rest : Str) :
    (rest ≠ [] → _parse_crud (v ++ '_' :: rest) = (v, rest) ∧ v ≠ []) ∧
    _parse_crud (v ++ ['_']) = ([], []) := by
  fin_cases hv <;>
    refine ⟨fun hr => ⟨?_, by decide⟩, by decide⟩ <;>
    simp [_parse_crud, parseCrudGo, crudPrefixList, startsWithS,
          rstripUnderscore, stripRightIf, hr]
/-- Witness for C3 at `add_host` (CRUD) and the bare prefix `del_`. -/
theorem parse_crud_spec_witness :
    _parse_crud (("add_host").toList) = (("add").toList, ("host").toList) ∧
    _parse_crud (("del_").toList) = ([], []) :=
  ⟨((parse_crud_spec (("add").toList) (by decide) (("host").toList)).1 (by decide)).1,
   (parse_crud_spec (("del").toList) (by decide) []).2⟩
/-- C1 (amended): for a normalized suffix of fewer than 3 characters the
startswith fallback never fires, so if no earlier strategy - override,
generic-item delegate, exact name, container name, normalized forms,
plural, +ing, the endswith fallback, `_item`-stripping and the compound
strategies - matched, `_match_item` returns `none`. -/
theorem short_suffix_no_startswith (suffix controller moduleName : Str) (items : List ModelItem)
    (hov : overrideMatch moduleName controller (lowerStr suffix) items = none)
    (hitem : lowerStr suffix ≠ ("item").toList)
    (hex : exactNameMatch (lowerStr suffix) items = none)
    (hco : containerMatch (lowerStr suffix) items = none)
    (hnn : normNameMatch (_normalize suffix) items = none)
    (hnc : normContainerMatch (_normalize suffix) items = none)
    (hpl : pluralMatch (lowerStr suffix) items = none)
    (hing : ingMatch (lowerStr suffix) items = none)
    (hew : endsWithMatch (_normalize suffix) (lowerStr suffix) items = none)
    (hst : stripItemMatch (lowerStr suffix) items = none)
    (hcp : compoundMatch suffix (lowerStr suffix) items = none)
    (hlen : (_normalize suffix).length < 3) :
    _match_item suffix controller items moduleName = none := by
  have hn : ¬ (3 ≤ (_normalize suffix).length) := not_le.mpr hlen
  simp only [_match_item, hov, hitem, if_false, hex, hco, hnn, hnc, hpl, hing,
             hew, hst, hcp, Option.none_or, startsWithMatch, hn]
/-- Witness for C1 at the spec's own example: suffix `de` against the sole
Item `details` leaves the endpoint unmatched. -/
theorem short_suffix_no_startswith_witness :
    (_normalize (("de").toList)).length < 3 ∧
    _match_item (("de").toList) (("c").toList) [detailsItem] (("m").toList) = none :=
  ⟨by decide,
   short_suffix_no_startswith (("de").toList) (("c").toList) (("m").toList) [detailsItem]
     (by decide) (by decide) (by decide) (by decide) (by decide) (by decide)
     (by decide) (by decide) (by decide) (by decide) (by decide) (by decide)⟩
/-- C1 counterexample: the endswith fallback DOES fire for a suffix under 3
characters. Suffix `de` (normalized length 2) against the sole Item `hide`:
every strategy the claim lists as earlier (override, exact name, container
name, normalized, plural, +ing, `_item`-stripping, compound) fails, yet
`_match_item` returns the `hide` Item instead of `none`, because `hide`
ends with `de`. -/
theorem short_suffix_endswith_fires_cex :
    overrideMatch (("m").toList) (("c").toList) (lowerStr (("de").toList)) [hideItem] = none ∧
    lowerStr (("de").toList) ≠ ("item").toList ∧
    exactNameMatch (lowerStr (("de").toList)) [hideItem] = none ∧
    containerMatch (lowerStr (("de").toList)) [hideItem] = none ∧
    normNameMatch (_normalize (("de").toList)) [hideItem] = none ∧
    normContainerMatch (_normalize (("de").toList)) [hideItem] = none ∧
    pluralMatch (lowerStr (("de").toList)) [hideItem] = none ∧
    ingMatch (lowerStr (("de").toList)) [hideItem] = none ∧
    stripItemMatch (lowerStr (("de").toList)) [hideItem] = none ∧
    compoundMatch (("de").toList) (lowerStr (("de").toList)) [hideItem] = none ∧
    (_normalize (("de").toList)).length < 3 ∧
    _match_item (("de").toList) (("c").toList) [hideItem] (("m").toList) = some hideItem := by
  decide
/-- The manual override table never fires for the generic suffix `item`:
no override key carries that suffix. -/
theorem override_none_of_suffix_item (mn c : Str) (items : List ModelItem) :
    overrideMatch mn c (("item").toList) items = none := by
  simp [overrideMatch, manualOverrides, List.find?_cons, Prod.ext_iff]
/-- Controller-name matching over a single-Item model always returns that
Item: every rung of `_match_item_suffix` either returns it or falls through
to the sole-item fallback. -/
theorem match_item_suffix_singleton (controller : Str) (item : ModelItem) :
    _match_item_suffix controller [item] = some item := by
  have hfind : ∀ p : ModelItem → Bool,
      List.find? p [item] = some item ∨ List.find? p [item] = none := by
    intro p
    cases hp : p item
    · right; simp [List.find?_cons, hp]
    · left; simp [List.find?_cons, hp]
  have hor : ∀ o : Option ModelItem, (o = some item ∨ o = none) →
      ∀ o' : Option ModelItem, o' = some item → o.or o' = some item := by
    rintro o (h | h) o' h' <;> simp [h, h']
  simp only [_match_item_suffix]
  apply hor _ (hfind _)
  apply hor _ (hfind _)
  apply hor _ (hfind _)
  refine hor _ ?_ _ ?_
  · split
    · exact hfind _
    · right; rfl
  · simp
/-- C4: an endpoint whose command is a CRUD prefix followed by the generic
suffix `item`, resolved against a model holding exactly one Item, is linked
to that sole Item - whatever the item name, container name, controller name
and module name are. -/
theorem generic_item_single_item (p : Str) (hp : p ∈ crudPrefixList) (moduleName : Str)
    (item : ModelItem) (ep : Endpoint) (hcmd : ep.command = p ++ ("item").toList) :
    (resolveEndpoint moduleName [item] ep).crud_verb ≠ [] ∧
    (resolveEndpoint moduleName [item] ep).model_item = some item ∧
    (resolveEndpoint moduleName [item] ep).item_json_key = item.name := by
  have hlow : lowerStr (("item").toList) = ("item").toList := by decide
  have hmatch : ∀ ctl : Str,
      _match_item ['i', 't', 'e', 'm'] ctl [item] moduleName = some item := by
    intro ctl
    show _match_item (("item").toList) ctl [item] moduleName = some item
    simp only [_match_item, hlow, override_none_of_suffix_item, if_pos rfl]
    exact match_item_suffix_singleton ctl item
  fin_cases hp
  case _ =>
    have hpc : _parse_crud ep.command = (("add").toList, ("item").toList) := by
      rw [hcmd]; decide
    refine ⟨?_, ?_, ?_⟩ <;> simp [resolveEndpoint, hpc, hmatch]
  case _ =>
    have hpc : _parse_crud ep.command = (("set").toList, ("item").toList) := by
      rw [hcmd]; decide
    refine ⟨?_, ?_, ?_⟩ <;> simp [resolveEndpoint, hpc, hmatch]
  case _ =>
    have hpc : _parse_crud ep.command = (("get").toList, ("item").toList) := by
      rw [hcmd]; decide
    refine ⟨?_, ?_, ?_⟩ <;> simp [resolveEndpoint, hpc, hmatch]
  case _ =>
    have hpc : _parse_crud ep.command = (("del").toList, ("item").toList) := by
      rw [hcmd]; decide
    refine ⟨?_, ?_, ?_⟩ <;> simp [resolveEndpoint, hpc, hmatch]
  case _ =>
    have hpc : _parse_crud ep.command = (("search").toList, ("item").toList) := by
      rw [hcmd]; decide
    refine ⟨?_, ?_, ?_⟩ <;> simp [resolveEndpoint, hpc, hmatch]
  case _ =>
    have hpc : _parse_crud ep.command = (("toggle").toList, ("item").toList) := by
      rw [hcmd]; decide
    refine ⟨?_, ?_, ?_⟩ <;> simp [resolveEndpoint, hpc, hmatch]
/-- Witness for C4: `add_item` against the sole Item `zzz` (container `qqq`)
under controller `ctl` links to that Item. -/
theorem generic_item_single_item_witness :
    (resolveEndpoint (("m").toList) [weirdItem] epAddItem).crud_verb ≠ [] ∧
    (resolveEndpoint (("m").toList) [weirdItem] epAddItem).model_item = some weirdItem ∧
    (resolveEndpoint (("m").toList) [weirdItem] epAddItem).item_json_key = weirdItem.name :=
  generic_item_single_item (("add_").toList) (by decide) (("m").toList) weirdItem epAddItem
    (by decide)
/-- C5 (amended): when no manual override applies and the suffix is not the
generic token `item`, a suffix equal case-insensitively to some Item's own
name makes `_match_item` return the first such Item in list order, ahead of
any container-name, normalized or plural match. -/
theorem exact_name_match_first (suffix controller moduleName : Str) (items : List ModelItem)
    (hov : overrideMatch moduleName controller (lowerStr suffix) items = none)
    (hitem : lowerStr suffix ≠ ("item").toList)
    (hex : ∃ it ∈ items, lowerStr it.name = lowerStr suffix) :
    _match_item suffix controller items moduleName =
      items.find? (fun it => decide (lowerStr it.name = lowerStr suffix)) := by
  have hsome : (items.find? (fun it => decide (lowerStr it.name = lowerStr suffix))).isSome := by
    rw [List.find?_isSome]
    obtain ⟨it, hmem, h⟩ := hex
    exact ⟨it, hmem, by simp [h]⟩
  obtain ⟨a, ha⟩ := Option.isSome_iff_exists.mp hsome
  simp only [_match_item, hov, exactNameMatch, ha, hitem, if_false]
  rfl
/-- Witness for C5: suffix `alias` against `[entryInAliasItem, aliasItem]`;
the first Item's container is literally `alias`, yet the Item named `alias`
(first exact name match) is returned. -/
theorem exact_name_match_first_witness :
    _match_item (("alias").toList) (("c").toList) [entryInAliasItem, aliasItem] (("m").toList) =
      [entryInAliasItem, aliasItem].find?
        (fun it => decide (lowerStr it.name = lowerStr (("alias").toList))) :=
  exact_name_match_first (("alias").toList) (("c").toList) (("m").toList)
    [entryInAliasItem, aliasItem] (by decide) (by decide) (by decide)
/-- C5 counterexample: the claim fails as stated, because the manual override
stage outranks the exact-name stage. Suffix `url` under module `clamav`,
controller `url`: the Item named `url` is the first (and only) exact-name
match, yet `_match_item` returns the `list` Item. -/
theorem exact_name_match_first_cex :
    lowerStr urlItem.name = lowerStr (("url").toList) ∧
    [urlItem, listItem].find?
        (fun it => decide (lowerStr it.name = lowerStr (("url").toList))) = some urlItem ∧
    _match_item (("url").toList) (("url").toList) [urlItem, listItem] (("clamav").toList) =
      some listItem ∧
    listItem ≠ urlItem := by
  decide
/-- A property holding of every some-value of a list of options holds of the
result of `firstSome`. -/
theorem firstSome_spec {α : Type} (P : α → Prop) :
    ∀ l : List (Option α), (∀ o ∈ l, ∀ a, o = some a → P a) →
      ∀ a, firstSome l = some a → P a := by
  intro l
  induction l with
  | nil => intro _ a ha; simp [firstSome] at ha
  | cons o rest ih =>
    intro h a ha
    rw [firstSome] at ha
    rcases Option.or_eq_some.mp ha with h1 | ⟨_, h2⟩
    · exact h o (List.mem_cons_self o rest) a h1
    · exact ih (fun o' ho' => h o' (List.mem_cons_of_mem o ho')) a h2
/-- A some-result of two chained `find?` stages over `items` is in `items`. -/
theorem or_find?_mem {p q : ModelItem → Bool} {items : List ModelItem} {a : ModelItem}
    (h : ((items.find? p).or (items.find? q)) = some a) : a ∈ items := by
  rcases Option.or_eq_some.mp h with h1 | ⟨_, h2⟩
  exacts [List.mem_of_find?_eq_some h1, List.mem_of_find?_eq_some h2]
/-- A some-result of `_match_item_suffix` is one of the queried items. -/
theorem _match_item_suffix_mem {controller : Str} {items : List ModelItem} {a : ModelItem}
    (h : _match_item_suffix controller items = some a) : a ∈ items := by
  simp only [_match_item_suffix] at h
  rcases Option.or_eq_some.mp h with h1 | ⟨_, h⟩
  · exact List.mem_of_find?_eq_some h1
  rcases Option.or_eq_some.mp h with h1 | ⟨_, h⟩
  · exact List.mem_of_find?_eq_some h1
  rcases Option.or_eq_some.mp h with h1 | ⟨_, h⟩
  · exact List.mem_of_find?_eq_some h1
  rcases Option.or_eq_some.mp h with h1 | ⟨_, h⟩
  · revert h1
    split
    · exact fun h1 => List.mem_of_find?_eq_some h1
    · intro h1; cases h1
  · revert h
    split
    · intro h
      cases items with
      | nil => cases h
      | cons x xs =>
        have hax : a = x := by simpa using h.symm
        rw [hax]
        exact List.mem_cons_self x xs
    · intro h; cases h
/-- A some-result of any of the suffix-strategy stages is in `items`. -/
theorem _match_item_mem {suffix controller moduleName : Str} {items : List ModelItem}
    {a : ModelItem} (h : _match_item suffix controller items moduleName = some a) :
    a ∈ items := by
  simp only [_match_item] at h
  cases hov : overrideMatch moduleName controller (lowerStr suffix) items with
  | some it =>
    rw [hov] at h
    simp only [] at h
    cases h
    simp only [overrideMatch] at hov
    revert hov
    split
    · exact fun hov => List.mem_of_find?_eq_some hov
    · intro hov; cases hov
  | none =>
    rw [hov] at h
    simp only [] at h
    by_cases hi : lowerStr suffix = ("item").toList
    · rw [if_pos hi] at h
      exact _match_item_suffix_mem h
    rw [if_neg hi] at h
    rcases Option.or_eq_some.mp h with h1 | ⟨_, h⟩
    · exact List.mem_of_find?_eq_some h1
    rcases Option.or_eq_some.mp h with h1 | ⟨_, h⟩
    · exact List.mem_of_find?_eq_some h1
    rcases Option.or_eq_some.mp h with h1 | ⟨_, h⟩
    · exact List.mem_of_find?_eq_some h1
    rcases Option.or_eq_some.mp h with h1 | ⟨_, h⟩
    · exact List.mem_of_find?_eq_some h1
    rcases Option.or_eq_some.mp h with h1 | ⟨_, h⟩
    · refine firstSome_spec (· ∈ items) _ ?_ a h1
      intro o ho b hb
      simp only [List.mem_map] at ho
      obtain ⟨pl, _, rfl⟩ := ho
      exact or_find?_mem hb
    rcases Option.or_eq_some.mp h with h1 | ⟨_, h⟩
    · exact List.mem_of_find?_eq_some h1
    rcases Option.or_eq_some.mp h with h1 | ⟨_, h⟩
    · refine firstSome_spec (· ∈ items) _ ?_ a h1
      intro o ho b hb
      simp only [List.mem_map] at ho
      obtain ⟨cand, _, rfl⟩ := ho
      exact or_find?_mem hb
    rcases Option.or_eq_some.mp h with h1 | ⟨_, h⟩
    · exact List.mem_of_find?_eq_some h1
    rcases Option.or_eq_some.mp h with h1 | ⟨_, h⟩
    · simp only [compoundMatch] at h1
      revert h1
      split
      · intro h1
        rcases Option.or_eq_some.mp h1 with h2 | ⟨_, h1⟩
        · exact List.mem_of_find?_eq_some h2
        · exact or_find?_mem h1
      · intro h1; cases h1
    · simp only [startsWithMatch] at h
      revert h
      split
      · exact fun h => or_find?_mem h
      · intro h; cases h
/-- One endpoint resolution step annotates atomically and changes nothing
else. -/
theorem resolveEndpoint_ok (mn : Str) (items : List ModelItem) (e : Endpoint)
    (hdef : e.crud_verb = [] ∧ e.model_item = none ∧ e.item_json_key = []) :
    epResolvedOk mn items e (resolveEndpoint mn items e) := by
  unfold epResolvedOk
  by_cases hv : (_parse_crud e.command).1 = []
  · have hre : resolveEndpoint mn items e = e := by
      simp only [resolveEndpoint, if_pos hv]
    rw [hre]
    exact ⟨⟨rfl, rfl, rfl, rfl, rfl, rfl, rfl, rfl⟩, Or.inr hdef⟩
  · cases hm : _match_item (_parse_crud e.command).2 e.controller items mn with
    | none =>
      have hre : resolveEndpoint mn items e = e := by
        simp only [resolveEndpoint, if_neg hv, hm]
      rw [hre]
      exact ⟨⟨rfl, rfl, rfl, rfl, rfl, rfl, rfl, rfl⟩, Or.inr hdef⟩
    | some it =>
      have hre : resolveEndpoint mn items e =
          { e with crud_verb := (_parse_crud e.command).1, model_item := some it,
                   item_json_key := it.name } := by
        simp only [resolveEndpoint, if_neg hv, hm]
      rw [hre]
      exact ⟨⟨rfl, rfl, rfl, rfl, rfl, rfl, rfl, rfl⟩,
        Or.inl ⟨rfl, hv, it, rfl, _match_item_mem hm, rfl, rfl⟩⟩
/-- C6: `resolve_endpoints` only annotates, atomically per endpoint: when all
endpoints carry the dataclass defaults, each endpoint afterwards either has
crud verb, model item and interchange key set together or keeps all three
defaults; every other field of every endpoint, controller and module is
unchanged, and no entity is added or removed (the before/after lists are
pairwise related level by level). -/
theorem resolve_endpoints_frame (modules : List Module)
    (hdef : ∀ m ∈ modules, ∀ c ∈ m.controllers, ∀ e ∈ c.endpoints,
      e.crud_verb = [] ∧ e.model_item = none ∧ e.item_json_key = []) :
    List.Forall₂ modResolvedOk modules (resolve_endpoints modules) := by
  rw [resolve_endpoints, List.forall₂_map_right_iff, List.forall₂_same]
  intro m hm
  refine ⟨rfl, rfl, ?_⟩
  rw [List.forall₂_map_right_iff, List.forall₂_same]
  intro c hc
  rcases hmod : c.model with _ | mo
  · have hrc : resolveController m.name c = c := by
      rw [resolveController, hmod]
    rw [hrc]
    refine ⟨rfl, rfl, rfl, rfl, rfl, rfl, ?_⟩
    rw [List.forall₂_same]
    intro e _
    simp only [hmod]
  · by_cases hemp : mo.items = []
    · have hrc : resolveController m.name c = c := by
        rw [resolveController, hmod]
        simp [hemp]
      rw [hrc]
      refine ⟨rfl, rfl, rfl, rfl, rfl, rfl, ?_⟩
      rw [List.forall₂_same]
      intro e _
      simp only [hmod, hemp, if_pos]
    · have hrc : resolveController m.name c =
          { c with endpoints := c.endpoints.map (resolveEndpoint m.name mo.items) } := by
        rw [resolveController, hmod]
        simp [hemp]
      rw [hrc]
      refine ⟨rfl, rfl, rfl, rfl, rfl, rfl, ?_⟩
      simp only []
      rw [List.forall₂_map_right_iff, List.forall₂_same]
      intro e he
      simp only [hmod]
      rw [if_neg hemp]
      exact resolveEndpoint_ok m.name mo.items e (hdef m hm c hc e he)
/-- Witness for C6 on a concrete one-module graph. -/
theorem resolve_endpoints_frame_witness :
    List.Forall₂ modResolvedOk [moduleForFrame] (resolve_endpoints [moduleForFrame]) :=
  resolve_endpoints_frame [moduleForFrame] (by decide)
/-- Every survivor of the seen-set deduplication has a key outside `seen`,
and is the first element of the input with its key. -/
theorem dedupByKey_spec (key : Endpoint → Str) :
    ∀ (l : List Endpoint) (seen : List Str) (e : Endpoint),
      e ∈ dedupByKey key seen l →
      key e ∉ seen ∧ l.find? (fun x => decide (key x = key e)) = some e := by
  intro l
  induction l with
  | nil => intro seen e he; cases he
  | cons x xs ih =>
    intro seen e he
    rw [dedupByKey] at he
    by_cases hx : key x ∈ seen
    · rw [if_pos hx] at he
      obtain ⟨hnotin, hfind⟩ := ih seen e he
      have hne : key x ≠ key e := fun hEq => hnotin (hEq ▸ hx)
      refine ⟨hnotin, ?_⟩
      rw [List.find?_cons]
      simp [hne, hfind]
    · rw [if_neg hx] at he
      rcases List.mem_cons.mp he with rfl | he2
      · refine ⟨hx, ?_⟩
        rw [List.find?_cons]
        simp
      · obtain ⟨hnotin, hfind⟩ := ih (key x :: seen) e he2
        have hne : key x ≠ key e := fun hEq => hnotin (by rw [hEq]; exact List.mem_cons_self _ _)
        refine ⟨fun hseen => hnotin (List.mem_cons_of_mem _ hseen), ?_⟩
        rw [List.find?_cons]
        simp [hne, hfind]
/-- The keys of the deduplicated list are pairwise distinct. -/
theorem dedupByKey_nodup (key : Endpoint → Str) :
    ∀ (l : List Endpoint) (seen : List Str),
      ((dedupByKey key seen l).map key).Nodup := by
  intro l
  induction l with
  | nil => intro seen; simp [dedupByKey]
  | cons x xs ih =>
    intro seen
    rw [dedupByKey]
    by_cases hx : key x ∈ seen
    · rw [if_pos hx]; exact ih seen
    · rw [if_neg hx]
      simp only [List.map_cons, List.nodup_cons]
      refine ⟨?_, ih (key x :: seen)⟩
      intro hmemmap
      rcases List.mem_map.mp hmemmap with ⟨e, he, hkeq⟩
      exact (dedupByKey_spec key xs (key x :: seen) e he).1
        (by rw [hkeq]; exact List.mem_cons_self _ _)
/-- No key outside `seen` is lost by the deduplication. -/
theorem dedupByKey_complete (key : Endpoint → Str) :
    ∀ (l : List Endpoint) (seen : List Str) (x : Endpoint), x ∈ l → key x ∉ seen →
      ∃ e ∈ dedupByKey key seen l, key e = key x := by
  intro l
  induction l with
  | nil => intro seen x hx; cases hx
  | cons y ys ih =>
    intro seen x hx hnotin
    rw [dedupByKey]
    by_cases hy : key y ∈ seen
    · rw [if_pos hy]
      rcases List.mem_cons.mp hx with rfl | hx2
      · exact absurd hy hnotin
      · exact ih seen x hx2 hnotin
    · rw [if_neg hy]
      by_cases hkey : key x = key y
      · exact ⟨y, List.mem_cons_self _ _, hkey.symm⟩
      · rcases List.mem_cons.mp hx with rfl | hx2
        · exact absurd rfl hkey
        · obtain ⟨e, he, hke⟩ := ih (key y :: seen) x hx2 (by
            intro hmem
            rcases List.mem_cons.mp hmem with h | h
            · exact hkey h
            · exact hnotin h)
          exact ⟨e, List.mem_cons_of_mem _ he, hke⟩
/-- C7 (amended): the client emitter's `_collect_endpoints` deduplicates
`go_method_name` across the whole module (first occurrence in declaration
order wins, nothing else is lost); the CLI emitter's collection loop
deduplicates per controller only, with the same first-wins rule inside each
controller. -/
theorem go_method_name_dedup (m : Module) :
    (((_collect_endpoints m).map (fun e => e.go_method_name)).Nodup ∧
      (∀ e ∈ _collect_endpoints m,
        ((m.controllers.filter (fun c => !c.is_abstract)).flatMap (fun c => c.endpoints)).find?
            (fun x => decide (x.go_method_name = e.go_method_name)) = some e) ∧
      (∀ x ∈ (m.controllers.filter (fun c => !c.is_abstract)).flatMap (fun c => c.endpoints),
        ∃ e ∈ _collect_endpoints m, e.go_method_name = x.go_method_name)) ∧
    (∀ c ∈ m.controllers,
      ((dedupByKey (fun e => e.go_method_name) [] c.endpoints).map
          (fun e => e.go_method_name)).Nodup ∧
      ∀ e ∈ dedupByKey (fun e => e.go_method_name) [] c.endpoints,
        c.endpoints.find? (fun x => decide (x.go_method_name = e.go_method_name)) = some e) := by
  refine ⟨⟨dedupByKey_nodup _ _ _, ?_, ?_⟩, ?_⟩
  · intro e he
    exact (dedupByKey_spec (fun e => e.go_method_name) _ [] e he).2
  · intro x hx
    exact dedupByKey_complete (fun e => e.go_method_name) _ [] x hx (by simp)
  · intro c _
    refine ⟨dedupByKey_nodup _ _ _, ?_⟩
    intro e he
    exact (dedupByKey_spec (fun e => e.go_method_name) _ [] e he).2
/-- C7 counterexample: with the duplicate spread over two controllers of one
module, the CLI emitter's per-controller collection keeps both occurrences
of the identifier `AbCD`, while the client emitter's module-wide collection
deduplicates it. -/
theorem go_method_name_dedup_cex :
    ((cliCollectSurvivors moduleDup).map (fun e => e.go_method_name)) =
      [("AbCD").toList, ("AbCD").toList] ∧
    ¬ ((cliCollectSurvivors moduleDup).map (fun e => e.go_method_name)).Nodup ∧
    ((_collect_endpoints moduleDup).map (fun e => e.go_method_name)).Nodup := by
  decide
/-- Witness for C7 at the same concrete module. -/
theorem go_method_name_dedup_witness :
    ((_collect_endpoints moduleDup).map (fun e => e.go_method_name)).Nodup ∧
    (∀ e ∈ _collect_endpoints moduleDup,
      ((moduleDup.controllers.filter (fun c => !c.is_abstract)).flatMap
          (fun c => c.endpoints)).find?
        (fun x => decide (x.go_method_name = e.go_method_name)) = some e) :=
  ⟨(go_method_name_dedup moduleDup).1.1, (go_method_name_dedup moduleDup).1.2.1⟩
/-- Lookup after a dict-style update: the updated key maps to the new value,
all other keys are unchanged. -/
theorem lookupAssoc_update {B : Type} :
    ∀ (l : List (Str × B)) (k : Str) (v : B) (q : Str),
      lookupAssoc (updateAssoc l k v) q = if q = k then some v else lookupAssoc l q := by
  intro l
  induction l with
  | nil =>
    intro k v q
    by_cases h : q = k
    · subst h; simp [updateAssoc, lookupAssoc, List.find?_cons]
    · have h2 : ¬ (k = q) := fun hh => h hh.symm
      simp [updateAssoc, lookupAssoc, List.find?_cons, h, h2]
  | cons kv rest ih =>
    intro k v q
    obtain ⟨k', v'⟩ := kv
    rw [updateAssoc]
    by_cases hk : k' = k
    · rw [if_pos hk]
      by_cases hq : q = k
      · subst hq; simp [lookupAssoc, List.find?_cons]
      · have h2 : ¬ (k = q) := fun hh => hq hh.symm
        subst hk
        simp [lookupAssoc, List.find?_cons, h2, hq]
    · rw [if_neg hk]
      by_cases hq' : k' = q
      · have hqk : ¬ (q = k) := fun hh => hk (by rw [hq', hh])
        simp [lookupAssoc, List.find?_cons, hq', hqk]
      · simp only [lookupAssoc, List.find?_cons]
        have hd : decide (k' = q) = false := by simp [hq']
        rw [hd]
        have hl := ih k v q
        simp only [lookupAssoc] at hl
        rw [hl]
/-- Invariant preservation for a dict update with the processed pair's own
score, assuming every already-processed pair with the same verb scores no
higher. -/
theorem bestInv_update (done : List (Endpoint × Str)) (best : List (Str × Endpoint × Nat))
    (ep0 : Endpoint) (v0 : Str)
    (h1 : ∀ v ep s, lookupAssoc best v = some (ep, s) →
      (ep, v) ∈ done ∧ s = epScore ep ∧ ∀ e, (e, v) ∈ done → epScore e ≤ s)
    (h2 : ∀ v, lookupAssoc best v = none → ∀ e, (e, v) ∉ done)
    (hdone : ∀ e, (e, v0) ∈ done → epScore e ≤ epScore ep0) :
    bestInv (done ++ [(ep0, v0)]) (updateAssoc best v0 (ep0, epScore ep0)) := by
  constructor
  · intro v ep s hq
    rw [lookupAssoc_update] at hq
    by_cases hv : v = v0
    · subst hv
      rw [if_pos rfl] at hq
      cases hq
      refine ⟨by simp, rfl, ?_⟩
      intro e he
      rcases List.mem_append.mp he with hd | hp
      · exact hdone e hd
      · simp at hp
        rw [hp]
    · rw [if_neg hv] at hq
      obtain ⟨hmem, hs, hmax⟩ := h1 v ep s hq
      refine ⟨List.mem_append_left _ hmem, hs, ?_⟩
      intro e he
      rcases List.mem_append.mp he with hd | hp
      · exact hmax e hd
      · simp at hp
        exact absurd hp.2 hv
  · intro v hq e
    rw [lookupAssoc_update] at hq
    by_cases hv : v = v0
    · subst hv
      rw [if_pos rfl] at hq
      cases hq
    · rw [if_neg hv] at hq
      intro he
      rcases List.mem_append.mp he with hd | hp
      · exact h2 v hq e hd
      · simp at hp
        exact hv hp.2
/-- One `bestStep` preserves the fold invariant. -/
theorem bestStep_inv (done : List (Endpoint × Str)) (best : List (Str × Endpoint × Nat))
    (p : Endpoint × Str) (h : bestInv done best) :
    bestInv (done ++ [p]) (bestStep best p) := by
  obtain ⟨h1, h2⟩ := h
  obtain ⟨ep0, v0⟩ := p
  cases hl : lookupAssoc best v0 with
  | none =>
    have hbs : bestStep best (ep0, v0) = updateAssoc best v0 (ep0, epScore ep0) := by
      simp only [bestStep, hl]
    rw [hbs]
    exact bestInv_update done best ep0 v0 h1 h2
      (fun e hd => absurd hd (h2 v0 hl e))
  | some pr =>
    obtain ⟨e', s'⟩ := pr
    by_cases hlt : s' < epScore ep0
    · have hbs : bestStep best (ep0, v0) = updateAssoc best v0 (ep0, epScore ep0) := by
        simp only [bestStep, hl, if_pos hlt]
      rw [hbs]
      refine bestInv_update done best ep0 v0 h1 h2 ?_
      intro e hd
      have hle := (h1 v0 e' s' hl).2.2 e hd
      omega
    · have hbs : bestStep best (ep0, v0) = best := by
        simp only [bestStep, hl, if_neg hlt]
      rw [hbs]
      constructor
      · intro v ep s hq
        obtain ⟨hmem, hs, hmax⟩ := h1 v ep s hq
        refine ⟨List.mem_append_left _ hmem, hs, ?_⟩
        intro e he
        rcases List.mem_append.mp he with hd | hp
        · exact hmax e hd
        · simp at hp
          obtain ⟨rfl, rfl⟩ := hp
          rw [hq] at hl
          cases hl
          omega
      · intro v hq e he
        rcases List.mem_append.mp he with hd | hp
        · exact h2 v hq e hd
        · simp at hp
          obtain ⟨rfl, rfl⟩ := hp
          rw [hq] at hl
          cases hl
/-- The fold invariant holds of the finished `bestFold`. -/
theorem bestFold_inv_go :
    ∀ (pairs done : List (Endpoint × Str)) (best : List (Str × Endpoint × Nat)),
      bestInv done best → bestInv (done ++ pairs) (pairs.foldl bestStep best) := by
  intro pairs
  induction pairs with
  | nil => intro done best h; simpa using h
  | cons p ps ih =>
    intro done best h
    rw [List.foldl_cons]
    have h3 := ih (done ++ [p]) (bestStep best p) (bestStep_inv done best p h)
    simpa [List.append_assoc] using h3
/-- The invariant at the start of the fold. -/
theorem bestInv_init : bestInv [] [] := by
  constructor
  · intro v ep s hq
    simp [lookupAssoc] at hq
  · intro v _ e
    simp
/-- Endpoint scores never exceed 2. -/
theorem epScore_le (e : Endpoint) : epScore e ≤ 2 := by
  unfold epScore
  split_ifs <;> omega
/-- Score 2 characterizes typed CRUD endpoints. -/
theorem epScore_two_iff (e : Endpoint) :
    epScore e = 2 ↔ (e.crud_verb ≠ [] ∧ e.model_item.isSome) := by
  unfold epScore
  split_ifs with h1 h2 <;> simp [h1]
/-- Score 1 characterizes untyped CRUD endpoints. -/
theorem epScore_one_iff (e : Endpoint) :
    epScore e = 1 ↔ (e.crud_verb ≠ [] ∧ e.model_item = none) := by
  unfold epScore
  split_ifs with h1 h2
  · constructor
    · intro hh; exact absurd hh (by decide)
    · rintro ⟨_, hnone⟩
      rw [hnone] at h1
      exact absurd h1.2 (by simp)
  · have hnone : e.model_item = none :=
      Option.not_isSome_iff_eq_none.mp (fun hs => h1 ⟨h2, hs⟩)
    simp [h2, hnone]
  · simp [h2]
/-- C8: in the verb-deduplication pass of `cli_emitter._collect_resources`,
the endpoint kept for a CLI verb is one of the recorded pairs for that verb
and carries a typed CRUD link when some endpoint of that verb has one,
otherwise an untyped CRUD verb when some endpoint of that verb has one,
otherwise it is a plain endpoint. -/
theorem cli_verb_selection (pairs : List (Endpoint × Str)) (v : Str) (ep : Endpoint) (s : Nat)
    (h : lookupAssoc (bestFold pairs) v = some (ep, s)) :
    (ep, v) ∈ pairs ∧
    ((∃ e, (e, v) ∈ pairs ∧ e.crud_verb ≠ [] ∧ e.model_item.isSome) →
      (ep.crud_verb ≠ [] ∧ ep.model_item.isSome)) ∧
    (¬ (∃ e, (e, v) ∈ pairs ∧ e.crud_verb ≠ [] ∧ e.model_item.isSome) →
      (∃ e, (e, v) ∈ pairs ∧ e.crud_verb ≠ [] ∧ e.model_item = none) →
      (ep.crud_verb ≠ [] ∧ ep.model_item = none)) ∧
    ((∀ e, (e, v) ∈ pairs → e.crud_verb = []) → ep.crud_verb = []) := by
  have hinv := bestFold_inv_go pairs [] [] bestInv_init
  rw [List.nil_append] at hinv
  rw [bestFold] at h
  obtain ⟨hmem, hs, hmax⟩ := hinv.1 v ep s h
  refine ⟨hmem, ?_, ?_, ?_⟩
  · rintro ⟨e, hmeme, he⟩
    have h2e : epScore e = 2 := (epScore_two_iff e).mpr he
    have hle : epScore e ≤ s := hmax e hmeme
    have hsle : epScore ep ≤ 2 := epScore_le ep
    have hep2 : epScore ep = 2 := by omega
    exact (epScore_two_iff ep).mp hep2
  · rintro hno ⟨e, hmeme, he⟩
    have h1e : epScore e = 1 := (epScore_one_iff e).mpr he
    have hle : epScore e ≤ s := hmax e hmeme
    have hne2 : epScore ep ≠ 2 := by
      intro hh
      exact hno ⟨ep, hmem, (epScore_two_iff ep).mp hh⟩
    have hsle : epScore ep ≤ 2 := epScore_le ep
    have hep1 : epScore ep = 1 := by omega
    exact (epScore_one_iff ep).mp hep1
  · intro hall
    exact hall ep hmem
/-- Witness for C8: with a plain, a typed and an untyped endpoint competing
for the verb `get`, the typed one is kept. -/
theorem cli_verb_selection_witness :
    (typedGetEp, ("get").toList) ∈ getPairs ∧
    ((∃ e, (e, ("get").toList) ∈ getPairs ∧ e.crud_verb ≠ [] ∧ e.model_item.isSome) →
      (typedGetEp.crud_verb ≠ [] ∧ typedGetEp.model_item.isSome)) ∧
    (¬ (∃ e, (e, ("get").toList) ∈ getPairs ∧ e.crud_verb ≠ [] ∧ e.model_item.isSome) →
      (∃ e, (e, ("get").toList) ∈ getPairs ∧ e.crud_verb ≠ [] ∧ e.model_item = none) →
      (typedGetEp.crud_verb ≠ [] ∧ typedGetEp.model_item = none)) ∧
    ((∀ e, (e, ("get").toList) ∈ getPairs → e.crud_verb = []) → typedGetEp.crud_verb = []) :=
  cli_verb_selection getPairs (("get").toList) typedGetEp 2 (by decide)
/-- takeWhile/dropWhile at the first separator of an append. -/
theorem takeWhileNe_append (sep : Char) :
    ∀ (l r : Str), sep ∉ l →
      ((l ++ sep :: r).takeWhile (fun c => decide (c ≠ sep)) = l ∧
       (l ++ sep :: r).dropWhile (fun c => decide (c ≠ sep)) = sep :: r) := by
  intro l
  induction l with
  | nil =>
    intro r _
    constructor <;> simp [List.takeWhile_cons, List.dropWhile_cons]
  | cons c cs ih =>
    intro r h
    have hc : c ≠ sep := fun hh => h (by rw [hh]; exact List.mem_cons_self _ _)
    have hcs : sep ∉ cs := fun hh => h (List.mem_cons_of_mem _ hh)
    obtain ⟨iht, ihd⟩ := ih r hcs
    constructor
    · simp only [List.cons_append, List.takeWhile_cons]
      rw [show decide (c ≠ sep) = true from by simp [hc]]
      rw [if_pos rfl, iht]
    · simp only [List.cons_append, List.dropWhile_cons]
      rw [show decide (c ≠ sep) = true from by simp [hc]]
      rw [if_pos rfl, ihd]
/-- C9 (amended): the parameter grammar of `_parse_parameters`. An empty or
whitespace-only string yields no parameters; a string that, after stripping
surrounding asterisks and whitespace, does not start with the `$` sigil
yields no parameters; every produced parameter has a default literal exactly
when it is not required; a sigil-led comma-joined token list is parsed
token-wise, where a token containing `=` yields a non-required parameter
whose name is the text before the first `=` and whose default is the text
after it stripped of whitespace only (a leading sigil is stripped from the
front of the whole token, not from the default), and a token without `=`
yields a required parameter with no default. -/
theorem parse_parameters_grammar :
    (_parse_parameters [] = []) ∧
    (∀ s : Str, isSpaceStr s = true → _parse_parameters s = []) ∧
    (∀ s : Str,
      startsWithS (stripWs (stripIf (fun c => decide (c = '*')) s)) (("$").toList) = false →
      _parse_parameters s = []) ∧
    (∀ s : Str, ∀ p ∈ _parse_parameters s,
      (p.required = true ∧ p.default = none) ∨
      (p.required = false ∧ ∃ d, p.default = some d)) ∧
    (∀ toks : List Str, toks ≠ [] → (∀ t ∈ toks, ',' ∉ t) →
      stripIf (fun c => decide (c = '*')) ([','].intercalate toks) = [','].intercalate toks →
      stripWs ([','].intercalate toks) = [','].intercalate toks →
      startsWithS ([','].intercalate toks) (("$").toList) = true →
      _parse_parameters ([','].intercalate toks) = toks.filterMap parseParamToken) ∧
    (∀ t name dflt : Str,
      stripLeftIf (fun c => decide (c = '$')) (stripWs t) = name ++ '=' :: dflt →
      '=' ∉ name →
      parseParamToken t =
        some { name := stripWs name, required := false, default := some (stripWs dflt) }) ∧
    (∀ t p' : Str,
      stripLeftIf (fun c => decide (c = '$')) (stripWs t) = p' → p' ≠ [] → '=' ∉ p' →
      parseParamToken t = some { name := stripWs p', required := true, default := none }) := by
  refine ⟨by decide, ?_, ?_, ?_, ?_, ?_, ?_⟩
  · intro s h
    simp [_parse_parameters, h]
  · intro s h3
    have h3x : startsWithS (stripWs (stripIf (fun c => decide (c = '*')) s)) ['$'] = false := h3
    by_cases h0 : s = [] ∨ isSpaceStr s = true
    · simp [_parse_parameters, h0]
    · simp [_parse_parameters, h0, h3x]
  · intro s p hp
    simp only [_parse_parameters] at hp
    split at hp
    · cases hp
    · split at hp
      · cases hp
      · obtain ⟨t, _, ht⟩ := List.mem_filterMap.mp hp
        simp only [parseParamToken] at ht
        split at ht
        · cases ht
        · split at ht
          · cases ht
            exact Or.inr ⟨rfl, _, rfl⟩
          · cases ht
            exact Or.inl ⟨rfl, rfl⟩
  · intro toks hne hnc hstar hws hstart
    have hcons : ∃ cs, [','].intercalate toks = '$' :: cs := by
      cases hj : [','].intercalate toks with
      | nil => rw [hj] at hstart; simp [startsWithS] at hstart
      | cons c cs =>
        rw [hj] at hstart
        simp [startsWithS] at hstart
        exact ⟨cs, by rw [hstart]⟩
    obtain ⟨cs, hj⟩ := hcons
    have hnsp : isSpaceStr ([','].intercalate toks) = false := by
      rw [hj]
      simp [isSpaceStr, isPyWs]
    simp only [_parse_parameters]
    rw [if_neg (by
      rintro (h | h)
      · rw [h] at hj; cases hj
      · rw [hnsp] at h; cases h)]
    rw [hstar, hws]
    rw [if_neg (fun hh => hh hstart)]
    rw [List.splitOn_intercalate toks ',' hnc hne]
  · intro t name dflt heq hnm
    simp only [parseParamToken]
    rw [heq]
    have hpne : name ++ '=' :: dflt ≠ [] := by simp
    rw [if_neg hpne]
    have hmem : '=' ∈ name ++ '=' :: dflt :=
      List.mem_append_right _ (List.mem_cons_self _ _)
    rw [if_pos hmem]
    obtain ⟨ht, hd⟩ := takeWhileNe_append '=' name dflt hnm
    simp only [splitOnceAt, ht, hd]
    simp
  · intro t p' heq hpne hnm
    simp only [parseParamToken]
    rw [heq, if_neg hpne, if_neg hnm]
/-- Witness for C9: the documented example `$uuid,$enabled=null` parses into
a required `uuid` and a non-required `enabled` defaulting to `null`. -/
theorem parse_parameters_grammar_witness :
    _parse_parameters ([','].intercalate [("$uuid").toList, ("$enabled=null").toList]) =
      [("$uuid").toList, ("$enabled=null").toList].filterMap parseParamToken ∧
    parseParamToken (("$enabled=null").toList) =
      some { name := ("enabled").toList, required := false,
             default := some (("null").toList) } ∧
    parseParamToken (("$uuid").toList) =
      some { name := ("uuid").toList, required := true, default := none } :=
  ⟨parse_parameters_grammar.2.2.2.2.1 [("$uuid").toList, ("$enabled=null").toList]
      (by decide) (by decide) (by decide) (by decide) (by decide),
   parse_parameters_grammar.2.2.2.2.2.1 (("$enabled=null").toList)
      (("enabled").toList) (("null").toList) (by decide) (by decide),
   parse_parameters_grammar.2.2.2.2.2.2 (("$uuid").toList) (("uuid").toList)
      (by decide) (by decide) (by decide)⟩
/-- C9 counterexample: the claim as stated fails twice on the code. The
token `$a=$b` keeps the sigil in its default (`$b`, not `b`), and the
string ` $a`, which does not start with the sigil, still yields a
parameter because the sigil test runs after whitespace stripping. -/
theorem parse_parameters_cex :
    _parse_parameters (("$a=$b").toList) =
      [{ name := ("a").toList, required := false, default := some (("$b").toList) }] ∧
    (("$b").toList : Str) ≠ ("b").toList ∧
    startsWithS ((" $a").toList) (("$").toList) = false ∧
    _parse_parameters ((" $a").toList) =
      [{ name := ("a").toList, required := true, default := none }] := by
  decide
end Gen
